import Mathlib

/-!
Verification of the pi-transcript core: the session-log line parser
(`parseSessionFile`), the content text extractor (`extractTextFromContent`),
the conversation grouping engine (`groupConversations`) and the pagination
partitioner (`PROMPTS_PER_PAGE`, `totalPagesFor`, `pageConvs`), shallowly
embedded from `src/renderer.ts`, `src/generate.ts` and `src/types.ts`.

Modelling conventions:
* JavaScript numbers that carry costs are modelled as exact rationals `ℚ`;
  token counts as `ℚ` mirror the numeric fields, page counts as `Nat`.
* A `Record<string, number>` used as a counter with default `0` is modelled
  as a total function `String → Nat` (a key is "absent" iff its count is 0;
  the code never stores an explicit 0).
* `JSON.parse` plus the structural shape check for one line is abstracted as
  a parameter `parse : String → Option SessionEntry`; everything after it
  (blank-line filtering, last-session-wins header, entry accumulation) is
  embedded from the source.  Reading the file itself is I/O and stays
  outside the embedding.
* Optional / possibly-absent JavaScript fields become `Option`; JavaScript
  truthiness tests on strings and numbers become explicit comparisons with
  `""` and `0`.  Fields of the TypeScript interfaces that no embedded
  function ever reads (message-level timestamps, `api`, `provider`,
  `stopReason`, argument payloads' values) are kept only where they shape
  the control flow.
-/

namespace PiTranscript

/-- `SessionHeader` from `types.ts`: the one-per-file `type: "session"` record. -/
structure SessionHeader where
  version : Nat
  id : String
  timestamp : String
  cwd : String
deriving DecidableEq, Repr

/-- `CostBreakdown` from `types.ts`. -/
structure CostBreakdown where
  input : ℚ
  output : ℚ
  cacheRead : ℚ
  cacheWrite : ℚ
  total : ℚ
deriving DecidableEq, Repr

/-- `Usage` from `types.ts`. -/
structure Usage where
  input : ℚ
  output : ℚ
  cacheRead : ℚ
  cacheWrite : ℚ
  totalTokens : ℚ
  cost : CostBreakdown
deriving DecidableEq, Repr

/-- `ContentBlock` from `types.ts`: `text`, `thinking`, `toolCall`, `image`,
plus a constructor for unknown block kinds, which every consumer must
tolerate (the renderer only ever tests for specific `type` tags). -/
inductive ContentBlock where
  | text (text : String)
  | thinking (thinking : String) (thinkingSignature : Option String)
  | toolCall (id : String) (name : String) (args : List (String × String))
  | image (mediaType : Option String) (data : Option String)
  | unknownKind (tag : String)
deriving DecidableEq, Repr

/-- The runtime value handed to `extractTextFromContent` and stored in
message `content` fields: either a raw string, an array of content blocks,
or anything else (`null`, a number, a non-array object, ...). -/
inductive ContentValue where
  | str (s : String)
  | blocks (bs : List ContentBlock)
  | other
deriving DecidableEq, Repr

/-- `Message` from `types.ts`, keyed by `role`. -/
inductive Message where
  | user (content : ContentValue)
  | assistant (content : ContentValue) (model : Option String) (usage : Option Usage)
  | toolResult (toolCallId : String) (toolName : String) (content : ContentValue)
      (isError : Option Bool)
deriving DecidableEq, Repr

/-- `SessionEntry` from `types.ts`: the discriminated union of log records.
A `message` entry's payload is `Option Message` because the grouping code
guards against a missing/null `message` field (`if (!msg) continue`). -/
inductive SessionEntry where
  | session (header : SessionHeader)
  | modelChange (id : String) (parentId : Option String) (timestamp : String)
      (provider : String) (modelId : String)
  | thinkingLevelChange (id : String) (parentId : Option String) (timestamp : String)
      (thinkingLevel : String)
  | message (id : String) (parentId : Option String) (timestamp : String)
      (message : Option Message)
  | other (tag : String)
deriving DecidableEq, Repr

/-- `ParsedSession` from `types.ts`. -/
structure ParsedSession where
  header : Option SessionHeader
  entries : List SessionEntry
deriving DecidableEq, Repr

/-- `Conversation` from `types.ts`.  `toolCounts` is the counter record
modelled as a total function with default 0. -/
structure Conversation where
  userText : String
  timestamp : String
  messages : List SessionEntry
  model : Option String
  totalCost : ℚ
  toolCounts : String → Nat

/-- The JavaScript `String.prototype.trim` primitive, modelled on the
character list: drop whitespace from both ends. -/
def jsTrim (s : String) : String :=
  String.mk (((s.data.dropWhile Char.isWhitespace).reverse.dropWhile
    Char.isWhitespace).reverse)

-- ── Entry stream parser (`parseSessionFile`, renderer.ts) ──────────────

/-- One iteration of the line loop in `parseSessionFile`: a line that fails
to parse is skipped, a `session` record replaces the header (last wins),
every other record is appended to `entries`. -/
def parseStep (parse : String → Option SessionEntry) (s : ParsedSession)
    (line : String) : ParsedSession :=
  match parse line with
  | none => s
  | some e =>
    match e with
    | .session h => { s with header := some h }
    | e => { s with entries := s.entries ++ [e] }

/-- The loop of `parseSessionFile` over the already-split lines:
`content.split("\n").filter((l) => l.trim())` then the per-line try/parse. -/
def parseSessionLines (parse : String → Option SessionEntry)
    (lines : List String) : ParsedSession :=
  (lines.filter (fun l => jsTrim l != "")).foldl (parseStep parse)
    { header := none, entries := [] }

/-- `parseSessionFile` on the full file content (the `readFileSync` call is
external I/O; its failure is the only error that propagates). -/
def parseSessionFile (parse : String → Option SessionEntry)
    (content : String) : ParsedSession :=
  parseSessionLines parse (content.splitOn "\n")

-- ── Text extractor (`extractTextFromContent`, renderer.ts) ─────────────

/-- The body of the accumulation loop of `extractTextFromContent`: push
the `text` of a `text`-kind block, ignore every other kind. -/
def pushText (texts : List String) (b : ContentBlock) : List String :=
  match b with
  | .text t => texts ++ [t]
  | _ => texts

/-- The accumulation loop of `extractTextFromContent`. -/
def collectTexts (bs : List ContentBlock) : List String :=
  bs.foldl pushText []

/-- `extractTextFromContent` from renderer.ts: a raw string is trimmed; an
array contributes its text blocks' texts joined by a single space, trimmed;
anything else yields `""`. -/
def extractTextFromContent : ContentValue → String
  | .str s => jsTrim s
  | .other => ""
  | .blocks bs => jsTrim (String.intercalate " " (collectTexts bs))

-- ── Conversation grouping engine (`groupConversations`, renderer.ts) ───

/-- The loop state of `groupConversations`: the conversations emitted so
far and the conversation currently being accumulated, if any. -/
structure GroupState where
  conversations : List Conversation
  current : Option Conversation

/-- Append an entry to the active conversation's `messages`; drop it when
no conversation is active. -/
def attachIfActive (s : GroupState) (e : SessionEntry) : GroupState :=
  match s.current with
  | some c => { s with current := some { c with messages := c.messages ++ [e] } }
  | none => s

/-- `current.toolCounts[name] = (current.toolCounts[name] || 0) + 1`. -/
def bumpTool (tc : String → Nat) (name : String) : String → Nat :=
  fun k => if k = name then tc name + 1 else tc k

/-- The body of the tool-call counting loop: a `toolCall` block increments
the counter at `block.name || "unknown"`, every other block is ignored. -/
def countBlockStep (tc : String → Nat) (b : ContentBlock) : String → Nat :=
  match b with
  | .toolCall _ name _ => bumpTool tc (if name = "" then "unknown" else name)
  | _ => tc

/-- The tool-call counting loop over an assistant message's content array. -/
def countToolCallBlocks (tc : String → Nat) (bs : List ContentBlock) :
    String → Nat :=
  bs.foldl countBlockStep tc

/-- The assistant part of the loop body: push the entry, then update
`model` (only when the message carries a non-empty model name), `totalCost`
(only when the usage cost total is defined and non-zero) and `toolCounts`
(only when the content is an array). -/
def assistantUpdate (c : Conversation) (e : SessionEntry)
    (content : ContentValue) (model : Option String)
    (usage : Option Usage) : Conversation :=
  let c1 := { c with messages := c.messages ++ [e] }
  let c2 :=
    match model with
    | some m => if m = "" then c1 else { c1 with model := some m }
    | none => c1
  let c3 :=
    match usage with
    | some u =>
      if u.cost.total = 0 then c2
      else { c2 with totalCost := c2.totalCost + u.cost.total }
    | none => c2
  match content with
  | .blocks bs => { c3 with toolCounts := countToolCallBlocks c3.toolCounts bs }
  | _ => c3

/-- One iteration of the `groupConversations` loop on one entry. -/
def stepEntry (s : GroupState) (e : SessionEntry) : GroupState :=
  match e with
  | .modelChange _ _ _ _ _ => attachIfActive s e
  | .thinkingLevelChange _ _ _ _ => attachIfActive s e
  | .session _ => s
  | .other _ => s
  | .message _ _ ts msg? =>
    match msg? with
    | none => s
    | some (.user content) =>
      let text := extractTextFromContent content
      { conversations :=
          match s.current with
          | some c => s.conversations ++ [c]
          | none => s.conversations,
        current := some
          { userText := if text = "" then "(empty prompt)" else text,
            timestamp := ts,
            messages := [e],
            model := none,
            totalCost := 0,
            toolCounts := fun _ => 0 } }
    | some (.toolResult _ _ _ _) => attachIfActive s e
    | some (.assistant content model usage) =>
      match s.current with
      | none => s
      | some c =>
        { s with current := some (assistantUpdate c e content model usage) }

/-- The final `if (current) conversations.push(current)` of the loop. -/
def flushFinal (s : GroupState) : List Conversation :=
  match s.current with
  | some c => s.conversations ++ [c]
  | none => s.conversations

/-- `groupConversations` from renderer.ts. -/
def groupConversations (entries : List SessionEntry) : List Conversation :=
  flushFinal (entries.foldl stepEntry { conversations := [], current := none })

-- ── Pagination partitioner (generate.ts / renderer.ts) ─────────────────

/-- `PROMPTS_PER_PAGE` from renderer.ts. -/
def PROMPTS_PER_PAGE : Nat := 5

/-- `Math.max(1, Math.ceil(totalConvs / PROMPTS_PER_PAGE))` from
generate.ts, with the ceiling of the exact division written as Nat
ceiling-division. -/
def totalPagesFor (totalConvs : Nat) : Nat :=
  max 1 ((totalConvs + PROMPTS_PER_PAGE - 1) / PROMPTS_PER_PAGE)

/-- `Array.prototype.slice(start, stop)` for `0 ≤ start ≤ stop`. -/
def listSlice (l : List Conversation) (start stop : Nat) : List Conversation :=
  (l.drop start).take (stop - start)

/-- The slice of conversations generate.ts puts on page `pageNum`
(1-indexed): `startIdx = (pageNum-1)*PROMPTS_PER_PAGE`,
`endIdx = min(startIdx + PROMPTS_PER_PAGE, totalConvs)`. -/
def pageConvs (convs : List Conversation) (pageNum : Nat) : List Conversation :=
  let startIdx := (pageNum - 1) * PROMPTS_PER_PAGE
  let endIdx := min (startIdx + PROMPTS_PER_PAGE) convs.length
  listSlice convs startIdx endIdx

-- ── Observations used to state the claims ──────────────────────────────

/-- A `message` entry whose (present) payload has role `user`. -/
def isUserEntry : SessionEntry → Bool
  | .message _ _ _ (some (.user _)) => true
  | _ => false

/-- The usage cost total an entry carries: the `usage.cost.total` of an
assistant message, `0` for everything else (including an assistant message
without usage). -/
def assistantCost : SessionEntry → ℚ
  | .message _ _ _ (some (.assistant _ _ (some u))) => u.cost.total
  | _ => 0

/-- The key a `toolCall` block is counted under: `block.name || "unknown"`. -/
def effectiveToolName (name : String) : String :=
  if name = "" then "unknown" else name

/-- How many `toolCall` blocks of a block list are counted under key `n`
(empty names fall back to `"unknown"`). -/
def blockToolCallCount (n : String) (bs : List ContentBlock) : Nat :=
  (bs.filter (fun b =>
    match b with
    | .toolCall _ name _ => effectiveToolName name == n
    | _ => false)).length

/-- How many `toolCall` blocks an entry contributes to key `n`: only an
assistant message with an array content contributes. -/
def entryToolCallCount (n : String) : SessionEntry → Nat
  | .message _ _ _ (some (.assistant (.blocks bs) _ _)) => blockToolCallCount n bs
  | _ => 0

/-- Modelled from the spec's words for comparison: the number of `toolCall`
blocks an entry contributes whose name is literally `n`, with no fallback
for an empty name. -/
def specEntryToolCallCount (n : String) : SessionEntry → Nat
  | .message _ _ _ (some (.assistant (.blocks bs) _ _)) =>
    (bs.filter (fun b =>
      match b with
      | .toolCall _ name _ => name == n
      | _ => false)).length
  | _ => 0

/-- The model name an entry carries: an assistant message's non-empty
`model` field (JavaScript truthiness: an empty string does not count as a
carried model name). -/
def carriedModel : SessionEntry → Option String
  | .message _ _ _ (some (.assistant _ (some m) _)) =>
    if m = "" then none else some m
  | _ => none

/-- Whether a record's discriminant tag is `session`. -/
def isSessionRecord : SessionEntry → Bool
  | .session _ => true
  | _ => false

/-- The header a record produces, if it is a `session` record. -/
def sessionHeaderOf : SessionEntry → Option SessionHeader
  | .session h => some h
  | _ => none

/-- The text of a `text`-kind content block. -/
def textOfBlock : ContentBlock → Option String
  | .text t => some t
  | _ => none

/-- Whether a content block is of `text` kind. -/
def isTextBlock : ContentBlock → Bool
  | .text _ => true
  | _ => false

-- ── Concrete inputs used by witnesses and instance checks ──────────────

/-- A user message entry with the given id and raw-string content. -/
def userEntry (id ts text : String) : SessionEntry :=
  .message id none ts (some (.user (.str text)))

/-- A usage record whose only non-zero number is the cost total. -/
def usageWithTotal (q : ℚ) : Usage :=
  { input := 0, output := 0, cacheRead := 0, cacheWrite := 0,
    totalTokens := 0,
    cost := { input := 0, output := 0, cacheRead := 0, cacheWrite := 0,
              total := q } }

/-- An assistant message entry carrying the given model, usage and blocks. -/
def assistantEntry (id ts : String) (model : Option String)
    (usage : Option Usage) (bs : List ContentBlock) : SessionEntry :=
  .message id none ts (some (.assistant (.blocks bs) model usage))

/-- A stream whose only conversation has assistant costs 0.01 and 0.02. -/
def costEntries : List SessionEntry :=
  [userEntry "u1" "t0" "Hello",
   assistantEntry "a1" "t1" none (some (usageWithTotal (1 / 100))) [],
   assistantEntry "a2" "t2" none (some (usageWithTotal (2 / 100))) []]

/-- A stream whose only conversation has three `bash` and one `read`
tool-call blocks spread over two assistant messages. -/
def toolEntries : List SessionEntry :=
  [userEntry "u1" "t0" "Hello",
   assistantEntry "a1" "t1" none none
     [.toolCall "c1" "bash" [], .toolCall "c2" "read" [],
      .toolCall "c3" "bash" []],
   assistantEntry "a2" "t2" none none [.toolCall "c4" "bash" []]]

/-- A stream whose only conversation has a single tool-call block whose
name is the empty string. -/
def emptyNameToolEntries : List SessionEntry :=
  [userEntry "u1" "t0" "Hello",
   assistantEntry "a1" "t1" none none [.toolCall "c1" "" []]]

/-- A stream exercising sticky model semantics: an assistant message names
`m1`, a later one names no model. -/
def stickyModelEntries : List SessionEntry :=
  [userEntry "u1" "t0" "Hello",
   assistantEntry "a1" "t1" (some "m1") none [],
   assistantEntry "a2" "t2" none none []]

/-- A lone assistant message with no preceding user message. -/
def leadingAssistantEntries : List SessionEntry :=
  [assistantEntry "a0" "t0" (some "m1") none [.text "Hi"]]

/-- A line parser for witnesses: one designated line fails structural
parsing, every other line parses to an unknown-tag record. -/
def demoParse (l : String) : Option SessionEntry :=
  if l = "not valid json" then none else some (.other l)

-- ── Invariants of the grouping fold ────────────────────────────────────

/-- The per-conversation invariant maintained by the grouping fold: the
message list is never empty, `totalCost` is the sum of the carried
assistant usage cost totals, `toolCounts` counts the tool-call blocks of
the assistant messages (under the `"unknown"` fallback key for empty
names), and `model` is the last carried model name. -/
def ConvInv (c : Conversation) : Prop :=
  c.messages ≠ [] ∧
  c.totalCost = (c.messages.map assistantCost).sum ∧
  (∀ n, c.toolCounts n = (c.messages.map (entryToolCallCount n)).sum) ∧
  c.model = (c.messages.filterMap carriedModel).getLast?

/-- The loop-state invariant: every already-emitted conversation and the
active conversation (if any) satisfy `ConvInv`. -/
def StateInv (s : GroupState) : Prop :=
  (∀ c ∈ s.conversations, ConvInv c) ∧ (∀ c, s.current = some c → ConvInv c)

-- ── Fold lemmas for the grouping engine ────────────────────────────────

lemma stepEntry_length (s : GroupState) (e : SessionEntry) :
    (flushFinal (stepEntry s e)).length =
      (flushFinal s).length + (if isUserEntry e then 1 else 0) := by
  cases e with
  | session h => simp [stepEntry, isUserEntry]
  | modelChange i p t pr m =>
    cases hc : s.current <;>
      simp [stepEntry, attachIfActive, flushFinal, isUserEntry, hc]
  | thinkingLevelChange i p t l =>
    cases hc : s.current <;>
      simp [stepEntry, attachIfActive, flushFinal, isUserEntry, hc]
  | other t => simp [stepEntry, isUserEntry]
  | message i p t msg? =>
    cases msg? with
    | none => simp [stepEntry, isUserEntry]
    | some msg =>
      cases msg with
      | user content =>
        cases hc : s.current <;> simp [stepEntry, flushFinal, isUserEntry, hc]
      | assistant content model usage =>
        cases hc : s.current <;> simp [stepEntry, flushFinal, isUserEntry, hc]
      | toolResult tid tname content isErr =>
        cases hc : s.current <;>
          simp [stepEntry, attachIfActive, flushFinal, isUserEntry, hc]

lemma foldl_stepEntry_length (l : List SessionEntry) :
    ∀ s : GroupState, (flushFinal (l.foldl stepEntry s)).length =
      (flushFinal s).length + l.countP isUserEntry := by
  induction l with
  | nil => intro s; simp
  | cons e l ih =>
    intro s
    rw [List.foldl_cons, ih, stepEntry_length, List.countP_cons]
    omega

/-- **C1.** `groupConversations` emits exactly one conversation per
`message` entry with role `user`; non-user entries before the first user
message yield no conversation (a lone leading assistant message produces
an empty output). -/
theorem groupConversations_count_eq_users (entries : List SessionEntry) :
    (groupConversations entries).length = entries.countP isUserEntry ∧
    groupConversations leadingAssistantEntries = [] := by
  constructor
  · have h := foldl_stepEntry_length entries { conversations := [], current := none }
    simpa [groupConversations, flushFinal] using h
  · rfl

lemma head?_append_left {α : Type} (l l' : List α) (h : l ≠ []) :
    (l ++ l').head? = l.head? := by
  cases l with
  | nil => exact absurd rfl h
  | cons a l => rfl

lemma bumpTool_apply (tc : String → Nat) (name k : String) :
    bumpTool tc name k = tc k + (if k = name then 1 else 0) := by
  by_cases h : k = name <;> simp [bumpTool, h]

lemma countBlock_foldl (bs : List ContentBlock) :
    ∀ (tc : String → Nat) (n : String),
      bs.foldl countBlockStep tc n = tc n + blockToolCallCount n bs := by
  induction bs with
  | nil => intro tc n; simp [blockToolCallCount]
  | cons b bs ih =>
    intro tc n
    rw [List.foldl_cons, ih]
    cases b with
    | toolCall i name args =>
      by_cases h : (if name = "" then "unknown" else name) = n
      · simp [countBlockStep, blockToolCallCount, List.filter_cons,
          effectiveToolName, bumpTool_apply, h]
        try omega
      · have h' : ¬ n = (if name = "" then "unknown" else name) :=
          fun hh => h hh.symm
        simp [countBlockStep, blockToolCallCount, List.filter_cons,
          effectiveToolName, bumpTool_apply, h, h']
        try omega
    | text t =>
      simp [countBlockStep, blockToolCallCount, List.filter_cons]
    | thinking t sig =>
      simp [countBlockStep, blockToolCallCount, List.filter_cons]
    | image mt d =>
      simp [countBlockStep, blockToolCallCount, List.filter_cons]
    | unknownKind tag =>
      simp [countBlockStep, blockToolCallCount, List.filter_cons]

lemma countToolCallBlocks_apply (tc : String → Nat) (bs : List ContentBlock)
    (n : String) :
    countToolCallBlocks tc bs n = tc n + blockToolCallCount n bs :=
  countBlock_foldl bs tc n

lemma assistantUpdate_messages (c : Conversation) (e : SessionEntry)
    (content : ContentValue) (model : Option String) (usage : Option Usage) :
    (assistantUpdate c e content model usage).messages = c.messages ++ [e] := by
  rcases content with s | bs | _ <;> rcases model with _ | m <;>
    rcases usage with _ | u <;> simp only [assistantUpdate] <;>
    try split_ifs
  all_goals rfl

lemma assistantUpdate_totalCost (c : Conversation) (e : SessionEntry)
    (content : ContentValue) (model : Option String) (usage : Option Usage) :
    (assistantUpdate c e content model usage).totalCost =
      c.totalCost + (match usage with | some u => u.cost.total | none => 0) := by
  rcases content with s | bs | _ <;> rcases model with _ | m <;>
    rcases usage with _ | u <;> simp only [assistantUpdate] <;>
    try split_ifs
  all_goals simp_all

lemma assistantUpdate_toolCounts (c : Conversation) (e : SessionEntry)
    (content : ContentValue) (model : Option String) (usage : Option Usage) :
    (assistantUpdate c e content model usage).toolCounts =
      (match content with
       | .blocks bs => countToolCallBlocks c.toolCounts bs
       | _ => c.toolCounts) := by
  rcases content with s | bs | _ <;> rcases model with _ | m <;>
    rcases usage with _ | u <;> simp only [assistantUpdate] <;>
    try split_ifs
  all_goals rfl

lemma assistantUpdate_model (c : Conversation) (e : SessionEntry)
    (content : ContentValue) (model : Option String) (usage : Option Usage) :
    (assistantUpdate c e content model usage).model =
      (match model with
       | some m => if m = "" then c.model else some m
       | none => c.model) := by
  rcases content with s | bs | _ <;> rcases model with _ | m <;>
    rcases usage with _ | u <;> simp only [assistantUpdate] <;>
    try split_ifs
  all_goals rfl

lemma ConvInv_attach (c : Conversation) (e : SessionEntry) (h : ConvInv c)
    (hcost : assistantCost e = 0)
    (htool : ∀ n, entryToolCallCount n e = 0)
    (hmodel : carriedModel e = none) :
    ConvInv { c with messages := c.messages ++ [e] } := by
  obtain ⟨hne, hcost', htool', hmodel'⟩ := h
  refine ⟨by simp, ?_, ?_, ?_⟩
  · simp [hcost', hcost]
  · intro n; simp [htool' n, htool n]
  · simp [List.filterMap_append, hmodel, hmodel']

lemma ConvInv_assistantUpdate (c : Conversation) (i : String)
    (p : Option String) (t : String) (content : ContentValue)
    (model : Option String) (usage : Option Usage) (h : ConvInv c) :
    ConvInv (assistantUpdate c
      (SessionEntry.message i p t (some (.assistant content model usage)))
      content model usage) := by
  obtain ⟨hne, hcost, htool, hmodel⟩ := h
  refine ⟨?_, ?_, ?_, ?_⟩
  · rw [assistantUpdate_messages]; simp
  · rw [assistantUpdate_totalCost, assistantUpdate_messages]
    rcases usage with _ | u <;> simp [assistantCost, hcost]
  · intro n
    rw [assistantUpdate_toolCounts, assistantUpdate_messages]
    rcases content with s | bs | _ <;>
      simp [countToolCallBlocks_apply, entryToolCallCount, htool n]
  · rw [assistantUpdate_model, assistantUpdate_messages]
    rw [List.filterMap_append]
    rcases model with _ | m
    · simp [carriedModel, hmodel]
    · by_cases hm : m = "" <;> simp [carriedModel, hm, hmodel]

lemma attachIfActive_inv (s : GroupState) (e : SessionEntry) (h : StateInv s)
    (hcost : assistantCost e = 0)
    (htool : ∀ n, entryToolCallCount n e = 0)
    (hmodel : carriedModel e = none) :
    StateInv (attachIfActive s e) := by
  obtain ⟨hconvs, hcur⟩ := h
  cases hc : s.current with
  | none => simpa [attachIfActive, hc] using ⟨hconvs, hcur⟩
  | some c =>
    refine ⟨?_, ?_⟩
    · simpa [attachIfActive, hc] using hconvs
    · intro c' hc'
      simp [attachIfActive, hc] at hc'
      rw [← hc']
      exact ConvInv_attach c e (hcur c hc) hcost htool hmodel

lemma stepEntry_inv (s : GroupState) (e : SessionEntry) (h : StateInv s) :
    StateInv (stepEntry s e) := by
  obtain ⟨hconvs, hcur⟩ := h
  cases e with
  | session h₀ => exact ⟨hconvs, hcur⟩
  | other t => exact ⟨hconvs, hcur⟩
  | modelChange i p t pr m =>
    exact attachIfActive_inv s _ ⟨hconvs, hcur⟩ rfl (fun n => rfl) rfl
  | thinkingLevelChange i p t lv =>
    exact attachIfActive_inv s _ ⟨hconvs, hcur⟩ rfl (fun n => rfl) rfl
  | message i p t msg? =>
    cases msg? with
    | none => exact ⟨hconvs, hcur⟩
    | some msg =>
      cases msg with
      | toolResult tid tname tcontent isErr =>
        exact attachIfActive_inv s _ ⟨hconvs, hcur⟩ rfl (fun n => rfl) rfl
      | user content =>
        refine ⟨?_, ?_⟩
        · cases hc : s.current with
          | none => simpa [stepEntry, hc] using hconvs
          | some c =>
            intro c' hc'
            simp [stepEntry, hc] at hc'
            rcases hc' with h1 | rfl
            · exact hconvs _ h1
            · exact hcur _ hc
        · intro c' hc'
          simp [stepEntry] at hc'
          rw [← hc']
          refine ⟨by simp, by simp [assistantCost], ?_, by simp [carriedModel]⟩
          intro n; simp [entryToolCallCount]
      | assistant content model usage =>
        cases hc : s.current with
        | none =>
          simp only [stepEntry, hc]
          exact ⟨hconvs, hcur⟩
        | some c =>
          refine ⟨?_, ?_⟩
          · simpa [stepEntry, hc] using hconvs
          · intro c' hc'
            simp [stepEntry, hc] at hc'
            rw [← hc']
            exact ConvInv_assistantUpdate c i p t content model usage (hcur c hc)

lemma stepEntry_heads (s : GroupState) (e : SessionEntry)
    (h : ∀ c, s.current = some c → c.messages ≠ []) :
    (flushFinal (stepEntry s e)).map (fun c => c.messages.head?) =
      (flushFinal s).map (fun c => c.messages.head?) ++
        (if isUserEntry e then [some e] else []) := by
  cases e with
  | session h₀ => simp [stepEntry, isUserEntry]
  | other t => simp [stepEntry, isUserEntry]
  | modelChange i p t pr m =>
    cases hc : s.current with
    | none => simp [stepEntry, attachIfActive, hc, isUserEntry]
    | some c =>
      simp [stepEntry, attachIfActive, flushFinal, hc, isUserEntry,
        head?_append_left _ _ (h c hc)]
  | thinkingLevelChange i p t lv =>
    cases hc : s.current with
    | none => simp [stepEntry, attachIfActive, hc, isUserEntry]
    | some c =>
      simp [stepEntry, attachIfActive, flushFinal, hc, isUserEntry,
        head?_append_left _ _ (h c hc)]
  | message i p t msg? =>
    cases msg? with
    | none => simp [stepEntry, isUserEntry]
    | some msg =>
      cases msg with
      | toolResult tid tname tcontent isErr =>
        cases hc : s.current with
        | none => simp [stepEntry, attachIfActive, hc, isUserEntry]
        | some c =>
          simp [stepEntry, attachIfActive, flushFinal, hc, isUserEntry,
            head?_append_left _ _ (h c hc)]
      | user content =>
        cases hc : s.current with
        | none => simp [stepEntry, flushFinal, hc, isUserEntry]
        | some c => simp [stepEntry, flushFinal, hc, isUserEntry]
      | assistant content model usage =>
        cases hc : s.current with
        | none => simp [stepEntry, hc, isUserEntry]
        | some c =>
          simp [stepEntry, flushFinal, hc, isUserEntry,
            assistantUpdate_messages, head?_append_left _ _ (h c hc)]

lemma foldl_stepEntry_inv (l : List SessionEntry) :
    ∀ s, StateInv s → StateInv (l.foldl stepEntry s) := by
  induction l with
  | nil => intro s hs; exact hs
  | cons e l ih => intro s hs; exact ih _ (stepEntry_inv s e hs)

lemma foldl_stepEntry_heads (l : List SessionEntry) :
    ∀ s, StateInv s →
      (flushFinal (l.foldl stepEntry s)).map (fun c => c.messages.head?) =
        (flushFinal s).map (fun c => c.messages.head?) ++
          (l.filter isUserEntry).map some := by
  induction l with
  | nil => intro s _; simp
  | cons e l ih =>
    intro s hs
    rw [List.foldl_cons, ih _ (stepEntry_inv s e hs),
      stepEntry_heads s e (fun c hc => (hs.2 c hc).1), List.filter_cons]
    by_cases he : isUserEntry e <;> simp [he]

lemma flushFinal_forall (s : GroupState) (h : StateInv s) :
    ∀ c ∈ flushFinal s, ConvInv c := by
  cases hc : s.current with
  | none => simpa [flushFinal, hc] using h.1
  | some c =>
    intro c' hc'
    simp [flushFinal, hc] at hc'
    rcases hc' with h1 | rfl
    · exact h.1 _ h1
    · exact h.2 _ hc

lemma stateInv_init : StateInv { conversations := [], current := none } := by
  constructor
  · intro c hc; cases hc
  · intro c hc; cases hc

lemma groupConversations_inv (entries : List SessionEntry) :
    ∀ c ∈ groupConversations entries, ConvInv c :=
  flushFinal_forall _ (foldl_stepEntry_inv entries _ stateInv_init)

/-- **C10.** A `message` entry with a missing/null payload is skipped for
every state of the fold: the output is the same as if it were absent, so
it joins no conversation and changes no aggregate. -/
theorem groupConversations_null_message_skipped (pre post : List SessionEntry)
    (id : String) (parentId : Option String) (ts : String) :
    groupConversations (pre ++ SessionEntry.message id parentId ts none :: post)
      = groupConversations (pre ++ post) := by
  simp [groupConversations, List.foldl_append, List.foldl_cons, stepEntry]

lemma ceil_div_five (a : ℕ) : ⌈(a : ℚ) / 5⌉₊ = (a + 4) / 5 := by
  apply le_antisymm
  · rw [Nat.ceil_le, div_le_iff₀ (by norm_num : (0 : ℚ) < 5)]
    have h : a ≤ (a + 4) / 5 * 5 := by omega
    exact_mod_cast h
  · rcases Nat.eq_zero_or_pos ((a + 4) / 5) with h0 | hpos
    · simp [h0]
    · have hk : (a + 4) / 5 = ((a + 4) / 5 - 1) + 1 := by omega
      rw [hk, Nat.add_one_le_ceil_iff, lt_div_iff₀ (by norm_num : (0 : ℚ) < 5)]
      have h : (((a + 4) / 5 - 1) * 5) < a := by omega
      exact_mod_cast h

lemma pageConvs_eq_drop_take (convs : List Conversation) (p : Nat) :
    pageConvs convs p =
      (convs.drop ((p - 1) * PROMPTS_PER_PAGE)).take PROMPTS_PER_PAGE := by
  simp only [pageConvs, listSlice]
  rcases le_or_lt ((p - 1) * PROMPTS_PER_PAGE + PROMPTS_PER_PAGE)
    convs.length with h | h
  · rw [min_eq_left h]
    congr 1
    omega
  · rw [min_eq_right (le_of_lt h)]
    have h1 : (convs.drop ((p - 1) * PROMPTS_PER_PAGE)).length ≤
        convs.length - (p - 1) * PROMPTS_PER_PAGE := by
      simp [List.length_drop]
    have h2 : (convs.drop ((p - 1) * PROMPTS_PER_PAGE)).length ≤
        PROMPTS_PER_PAGE := by
      simp only [List.length_drop]
      omega
    rw [List.take_of_length_le h1, List.take_of_length_le h2]

lemma range_flatMap_pages (k : Nat) (l : List Conversation) :
    (List.range k).flatMap
      (fun i => (l.drop (i * PROMPTS_PER_PAGE)).take PROMPTS_PER_PAGE) =
      l.take (k * PROMPTS_PER_PAGE) := by
  induction k with
  | zero => simp
  | succ k ih =>
    rw [List.range_succ, List.flatMap_append, ih]
    have h : (k + 1) * PROMPTS_PER_PAGE =
        k * PROMPTS_PER_PAGE + PROMPTS_PER_PAGE := by ring
    rw [h, List.take_add]
    simp

/-- **C3.** The partitioner computes `totalPages = max(1, ceil(C / 5))`
(so 1 even for `C = 0`), page `p` owns the half-open index range
`[(p-1)*5, p*5)`, and concatenating the pages' slices in page order
reproduces the conversation sequence exactly, so each conversation is on
exactly one page. -/
theorem pagination_partition_exact (convs : List Conversation) :
    totalPagesFor convs.length =
      max 1 ⌈(convs.length : ℚ) / (PROMPTS_PER_PAGE : ℚ)⌉₊ ∧
    (∀ p, pageConvs convs p =
      (convs.drop ((p - 1) * PROMPTS_PER_PAGE)).take PROMPTS_PER_PAGE) ∧
    (List.range (totalPagesFor convs.length)).flatMap
      (fun i => pageConvs convs (i + 1)) = convs := by
  refine ⟨?_, pageConvs_eq_drop_take convs, ?_⟩
  · have h : (PROMPTS_PER_PAGE : ℚ) = (5 : ℚ) := by norm_num [PROMPTS_PER_PAGE]
    rw [h, ceil_div_five]
    simp [totalPagesFor, PROMPTS_PER_PAGE]
  · have hp : ∀ i : Nat, pageConvs convs (i + 1) =
        (convs.drop (i * PROMPTS_PER_PAGE)).take PROMPTS_PER_PAGE := by
      intro i
      rw [pageConvs_eq_drop_take]
      simp
    calc (List.range (totalPagesFor convs.length)).flatMap
          (fun i => pageConvs convs (i + 1))
        = (List.range (totalPagesFor convs.length)).flatMap
          (fun i => (convs.drop (i * PROMPTS_PER_PAGE)).take PROMPTS_PER_PAGE) := by
          simp only [hp]
      _ = convs.take (totalPagesFor convs.length * PROMPTS_PER_PAGE) :=
          range_flatMap_pages _ convs
      _ = convs := by
          apply List.take_of_length_le
          simp only [totalPagesFor, PROMPTS_PER_PAGE]
          omega

lemma getLast?_cons_or {α : Type} (x : α) (xs : List α) :
    (x :: xs).getLast? = xs.getLast?.or (some x) := by
  induction xs generalizing x with
  | nil => rfl
  | cons y ys ih =>
    rw [List.getLast?_cons_cons, ih y]
    cases ys.getLast? <;> rfl

lemma parse_foldl_spec (parse : String → Option SessionEntry)
    (lines : List String) :
    ∀ s : ParsedSession,
      lines.foldl (parseStep parse) s =
        { header :=
            (((lines.filterMap parse).filterMap sessionHeaderOf).getLast?).or
              s.header,
          entries := s.entries ++ (lines.filterMap parse).filter
            (fun e => !(isSessionRecord e)) } := by
  induction lines with
  | nil => intro s; simp
  | cons l ls ih =>
    intro s
    rw [List.foldl_cons, ih]
    cases hp : parse l with
    | none => simp [parseStep, hp, List.filterMap_cons]
    | some e =>
      cases e with
      | session h₀ =>
        simp only [parseStep, hp, List.filterMap_cons, sessionHeaderOf,
          isSessionRecord, Bool.not_true, List.filter_cons]
        rw [getLast?_cons_or, Option.or_assoc]
        rfl
      | modelChange i p t pr m =>
        simp [parseStep, hp, List.filterMap_cons, sessionHeaderOf,
          isSessionRecord, List.filter_cons]
      | thinkingLevelChange i p t lv =>
        simp [parseStep, hp, List.filterMap_cons, sessionHeaderOf,
          isSessionRecord, List.filter_cons]
      | message i p t msg? =>
        simp [parseStep, hp, List.filterMap_cons, sessionHeaderOf,
          isSessionRecord, List.filter_cons]
      | other tag =>
        simp [parseStep, hp, List.filterMap_cons, sessionHeaderOf,
          isSessionRecord, List.filter_cons]

/-- **C4.** A line that fails structural parsing is silently dropped: the
parse of the surrounding lines is exactly the parse without that line, so
it contributes no entry, leaves the header unchanged and raises no error
(the embedded parse is total; only reading the file itself can fail). -/
theorem parseSession_bad_line_dropped (parse : String → Option SessionEntry)
    (pre post : List String) (bad : String) (h : parse bad = none) :
    parseSessionLines parse (pre ++ bad :: post) =
      parseSessionLines parse (pre ++ post) := by
  have hstep : ∀ s : ParsedSession, parseStep parse s bad = s := by
    intro s; simp [parseStep, h]
  cases hb : (jsTrim bad != "") with
  | true =>
    simp [parseSessionLines, List.filter_append, List.filter_cons, hb,
      List.foldl_append, List.foldl_cons, hstep]
  | false =>
    simp [parseSessionLines, List.filter_append, List.filter_cons, hb]

/-- Witness for C4: the concrete line `not valid json` between two valid
lines is dropped and the two valid lines parse as without it. -/
theorem parseSession_bad_line_dropped_w :
    demoParse "not valid json" = none ∧
    parseSessionLines demoParse ["alpha", "not valid json", "beta"] =
      parseSessionLines demoParse ["alpha", "beta"] :=
  ⟨rfl, parseSession_bad_line_dropped demoParse ["alpha"] ["beta"]
    "not valid json" rfl⟩

/-- **C5.** The parser's header is the last successfully parsed `session`
record (none if there is none), `session` records are never stored among
the entries, and the entries are exactly the other successfully parsed
records in line order, after blank lines are discarded. -/
theorem parseSessionFile_header_entries (parse : String → Option SessionEntry)
    (content : String) :
    (parseSessionFile parse content).header =
      ((((content.splitOn "\n").filter (fun l => jsTrim l != "")).filterMap
        parse).filterMap sessionHeaderOf).getLast? ∧
    (parseSessionFile parse content).entries =
      (((content.splitOn "\n").filter (fun l => jsTrim l != "")).filterMap
        parse).filter (fun e => !(isSessionRecord e)) := by
  have h := parse_foldl_spec parse
    ((content.splitOn "\n").filter (fun l => jsTrim l != ""))
    { header := none, entries := [] }
  constructor
  · simp only [parseSessionFile, parseSessionLines]
    rw [h]
    simp
  · simp only [parseSessionFile, parseSessionLines]
    rw [h]
    simp

lemma pushText_foldl (bs : List ContentBlock) :
    ∀ acc, bs.foldl pushText acc = acc ++ bs.filterMap textOfBlock := by
  induction bs with
  | nil => intro acc; simp
  | cons b bs ih =>
    intro acc
    cases b <;> simp [pushText, textOfBlock, List.foldl_cons, ih]

lemma collectTexts_eq (bs : List ContentBlock) :
    collectTexts bs = bs.filterMap textOfBlock := by
  simpa [collectTexts] using pushText_foldl bs []

/-- **C6.** The text extractor returns a plain string trimmed; on a block
sequence it returns the `text`-kind blocks' texts joined by one space and
trimmed (so a sequence with no `text` block yields `""`); and on any
other input, the empty sequence, or the empty string it returns `""`. -/
theorem extractTextFromContent_spec :
    (∀ s, extractTextFromContent (.str s) = jsTrim s) ∧
    (∀ bs, extractTextFromContent (.blocks bs) =
      jsTrim (String.intercalate " " (bs.filterMap textOfBlock))) ∧
    (∀ bs, bs.filter isTextBlock = [] →
      extractTextFromContent (.blocks bs) = "") ∧
    extractTextFromContent .other = "" ∧
    extractTextFromContent (.blocks []) = "" ∧
    extractTextFromContent (.str "") = "" := by
  refine ⟨fun s => rfl, ?_, ?_, rfl, rfl, rfl⟩
  · intro bs
    simp [extractTextFromContent, collectTexts_eq]
  · intro bs hfil
    have hfm : bs.filterMap textOfBlock = [] := by
      rw [List.filterMap_eq_nil_iff]
      intro b hb
      cases hbt : b with
      | text t =>
        exfalso
        have hmem : b ∈ bs.filter isTextBlock :=
          List.mem_filter.mpr ⟨hb, by simp [hbt, isTextBlock]⟩
        rw [hfil] at hmem
        cases hmem
      | thinking th sig => simp [textOfBlock]
      | toolCall i nm args => simp [textOfBlock]
      | image mt d => simp [textOfBlock]
      | unknownKind tag => simp [textOfBlock]
    simp [extractTextFromContent, collectTexts_eq, hfm]
    rfl

/-- Witness for C6: a block sequence holding only a tool call and an image
contains no `text` block and extracts to the empty string. -/
theorem extractTextFromContent_spec_w :
    ([ContentBlock.toolCall "c1" "ls" [], ContentBlock.image none none].filter
      isTextBlock = []) ∧
    extractTextFromContent (.blocks
      [ContentBlock.toolCall "c1" "ls" [], ContentBlock.image none none])
      = "" :=
  ⟨rfl, extractTextFromContent_spec.2.2.1 _ rfl⟩

/-- **C2.** Each emitted conversation's `messages` starts with the user
message entry that started it, and the conversations appear in the order
of their initiating user entries in the input: the list of first messages
equals the list of user-role message entries of the input. -/
theorem groupConversations_heads_are_user_entries (entries : List SessionEntry) :
    (groupConversations entries).map (fun c => c.messages.head?) =
      (entries.filter isUserEntry).map some := by
  have h := foldl_stepEntry_heads entries
    { conversations := [], current := none } stateInv_init
  simpa [groupConversations, flushFinal] using h

/-- **C7.** Every emitted conversation's `totalCost` is the sum of the
usage cost totals carried by its assistant messages; in particular the
conversation built from assistant costs 0.01 and 0.02 has
`totalCost = 0.03`. -/
theorem groupConversations_totalCost_sum (entries : List SessionEntry) :
    (groupConversations entries).map Conversation.totalCost =
      (groupConversations entries).map
        (fun c => (c.messages.map assistantCost).sum) ∧
    (groupConversations costEntries).map Conversation.totalCost = [3 / 100] := by
  constructor
  · exact List.map_congr_left
      (fun c hc => (groupConversations_inv entries c hc).2.1)
  · norm_num [groupConversations, stepEntry, assistantUpdate, flushFinal,
      costEntries, userEntry, assistantEntry, usageWithTotal, assistantCost]

/-- **C8 (amended).** Every emitted conversation's `toolCounts` at key `n`
is the number of `toolCall` blocks in its assistant messages' content
whose name maps to `n` under the code's `block.name || "unknown"`
fallback; in particular three `bash` blocks and one `read` block across
two assistant messages yield counts 3 and 1. -/
theorem groupConversations_toolCounts_sum (entries : List SessionEntry)
    (n : String) :
    (groupConversations entries).map (fun c => c.toolCounts n) =
      (groupConversations entries).map
        (fun c => (c.messages.map (entryToolCallCount n)).sum) ∧
    (groupConversations toolEntries).map
      (fun c => (c.toolCounts "bash", c.toolCounts "read")) = [(3, 1)] := by
  constructor
  · exact List.map_congr_left
      (fun c hc => (groupConversations_inv entries c hc).2.2.1 n)
  · decide

/-- **C8 (counterexample).** The claim read literally fails at the key
`"unknown"`: a conversation whose single assistant message contains one
`toolCall` block named `""` has `toolCounts "unknown" = 1`, yet it
contains no `toolCall` block literally named `"unknown"`. -/
theorem groupConversations_toolCounts_claim_cex :
    (groupConversations emptyNameToolEntries).map
      (fun c => c.toolCounts "unknown") = [1] ∧
    (groupConversations emptyNameToolEntries).map
      (fun c => (c.messages.map (specEntryToolCallCount "unknown")).sum)
      = [0] := by
  decide

/-- **C9.** The `model` field is sticky: every emitted conversation's
`model` is the last non-empty model name carried by its assistant
messages (`none` when none carried one); in particular an assistant
message without a model name does not clear a previously recorded one. -/
theorem groupConversations_model_sticky (entries : List SessionEntry) :
    (groupConversations entries).map Conversation.model =
      (groupConversations entries).map
        (fun c => (c.messages.filterMap carriedModel).getLast?) ∧
    (groupConversations stickyModelEntries).map Conversation.model
      = [some "m1"] := by
  constructor
  · exact List.map_congr_left
      (fun c hc => (groupConversations_inv entries c hc).2.2.2)
  · decide

end PiTranscript
